import Mathlib

/-!
Shallow embedding of the gogsmmodem AT-protocol library (quoting,
unquoting, the regex-based argument tokenizer, time parsing, the GSM
03.38 and 16-bit character tables, the packet parser, the listen state
machine, and the ListMessages loop), together with theorems settling the
frozen claims about the specification.

Modelling conventions: Go strings are modelled as Lean `String`
(sequences of characters; the library only manipulates them at rune
granularity, so byte-level and character-level views agree on the inputs
involved).  Go `interface\x7b\x7d` argument values are modelled by the
inductive `GoVal`.  A Go `panic` (failed type assertion, out-of-range
index or slice) is modelled by a distinguished result (`Option.none` or
`PResult.panicked`): it aborts the surrounding computation, it is not a
reported error value.
-/

set_option maxRecDepth 10000

namespace Gsmm

/-- Character constants written via code points so the file stays free of
delimiter characters inside character literals. -/
def dq : Char := Char.ofNat 34

def bslash : Char := Char.ofNat 92

def lbrace : Char := Char.ofNat 123

def rbrace : Char := Char.ofNat 125

/-- Whitespace recognised by the Go `strings.TrimSpace` fast path
(ASCII space classes plus NEL and NBSP; the inputs involved only ever
carry plain spaces). -/
def isGoSpace (c : Char) : Bool :=
  c = ' ' || c = '\t' || c = '\n' || c = Char.ofNat 11 || c = Char.ofNat 12 ||
  c = '\r' || c = Char.ofNat 133 || c = Char.ofNat 160

/-- Go `strings.Index(s, p) == 0`, i.e. `p` is a prefix of `s`
(source: `startsWith`, src/util.go). -/
def goStartsWith (s p : String) : Bool :=
  p.data.isPrefixOf s.data

def goEndsWith (s p : String) : Bool :=
  p.data.isSuffixOf s.data

/-- Go `strings.TrimSpace`. -/
def goTrimSpace (s : String) : String :=
  ⟨((s.data.dropWhile isGoSpace).reverse.dropWhile isGoSpace).reverse⟩

/-- Go `strings.Trim(s, c)` for a one-character cutset: remove all
leading and all trailing occurrences of `c`. -/
def goTrimChar (s : String) (c : Char) : String :=
  ⟨((s.data.dropWhile (· = c)).reverse.dropWhile (· = c)).reverse⟩

/-- Go `strings.TrimRight(s, cutset)` for the CRLF cutset. -/
def goTrimRightCRLF (s : String) : String :=
  ⟨(s.data.reverse.dropWhile (fun c => c = '\r' || c = '\n')).reverse⟩

/-- Go `strings.TrimPrefix`. -/
def goTrimPrefix (s p : String) : String :=
  if goStartsWith s p then ⟨s.data.drop p.data.length⟩ else s

/-- Go `strings.TrimSuffix`. -/
def goTrimSuffix (s p : String) : String :=
  if goEndsWith s p then ⟨s.data.take (s.data.length - p.data.length)⟩ else s

/-- Index of the first occurrence of `sep` (as a contiguous sublist) in
`l`, if any; used to model `strings.Index` / `strings.SplitN`. -/
def findSub (sep : List Char) : List Char → Option Nat
  | [] => if sep = [] then some 0 else none
  | c :: t => if sep.isPrefixOf (c :: t) then some 0 else (findSub sep t).map (· + 1)

/-- Go `strings.Contains`. -/
def goContains (s sub : String) : Bool :=
  (findSub sub.data s.data).isSome

/-- Go `strings.SplitN(s, sep, n)` for `n ≥ 1` and a non-empty
separator, on character lists. -/
def splitNOn (sep : List Char) : Nat → List Char → List (List Char)
  | 0, _ => []
  | 1, s => [s]
  | n + 2, s =>
    match findSub sep s with
    | none => [s]
    | some i => s.take i :: splitNOn sep (n + 1) (s.drop (i + sep.length))

/-- Go `strings.SplitN(header, colon, 2)`: `none` when the header has no
colon (the length-1 case in the source), otherwise the name before the
first colon and the raw text after it. -/
def splitHeader (h : String) : Option (String × String) :=
  let pre := h.data.takeWhile (· ≠ ':')
  let post := h.data.dropWhile (· ≠ ':')
  match post with
  | [] => none
  | _ :: rest => some (⟨pre⟩, ⟨rest⟩)

/-- Decimal digit character for a value below ten. -/
def digitChar (n : Nat) : Char := Char.ofNat (48 + n)

/-- Little-endian list of decimal digit characters of a natural number,
with explicit fuel so the definition reduces structurally; `fuel` above
the number of digits is always sufficient. -/
def natDigitsRevAux : Nat → Nat → List Char
  | 0, _ => []
  | fuel + 1, n =>
    if n < 10 then [digitChar n]
    else digitChar (n % 10) :: natDigitsRevAux fuel (n / 10)

/-- Little-endian list of decimal digit characters of a natural number. -/
def natDigitsRev (n : Nat) : List Char := natDigitsRevAux (n + 1) n

/-- Decimal rendering of a natural number (Go `strconv.Itoa` on
non-negative values, also the digits part of `fmt.Sprint`). -/
def natRepr (n : Nat) : String := ⟨(natDigitsRev n).reverse⟩

/-- Decimal rendering of a Go integer (`strconv.Itoa` / `fmt.Sprint`). -/
def intRepr (n : Int) : String :=
  if n < 0 then "-" ++ natRepr (-n).toNat else natRepr n.toNat

/-- Value of a decimal digit character, if it is one. -/
def digitVal (c : Char) : Option Nat :=
  if '0' ≤ c && c ≤ '9' then some (c.toNat - 48) else none

/-- One step of decimal accumulation: extend the accumulated value by
one digit, failing on a non-digit. -/
def atoiStep (acc : Option Nat) (c : Char) : Option Nat :=
  match acc, digitVal c with
  | some a, some d => some (a * 10 + d)
  | _, _ => none

/-- Natural number denoted by a non-empty list of decimal digit
characters; `none` on the empty list or any non-digit. -/
def digitsToNat : List Char → Option Nat
  | [] => none
  | l => l.foldl atoiStep (some 0)

/-- Go `strconv.Atoi`: optional sign, decimal digits, 64-bit range check
(out-of-range input is an error, hence `none`). -/
def goAtoi (s : String) : Option Int :=
  match s.data with
  | '+' :: ds =>
    match digitsToNat ds with
    | some v => if v ≤ 2 ^ 63 - 1 then some (Int.ofNat v) else none
    | none => none
  | '-' :: ds =>
    match digitsToNat ds with
    | some v => if v ≤ 2 ^ 63 then some (-(Int.ofNat v)) else none
    | none => none
  | ds =>
    match digitsToNat ds with
    | some v => if v ≤ 2 ^ 63 - 1 then some (Int.ofNat v) else none
    | none => none

/-- A Go `interface\x7b\x7d` argument value: a string, an `int`/`int64`,
or a value of any other type (`other` carries only the type name that
`%T` would print, which is all the library ever inspects of it). -/
inductive GoVal where
  | str (s : String)
  | int (n : Int)
  | other (typeName : String)
deriving DecidableEq, Repr

/-- Go `fmt.Sprint` restricted to the values `unquote` can produce. -/
def govalSprint : GoVal → String
  | .str s => s
  | .int n => intRepr n
  | .other t => t

/-- Source `quote` (src/util.go): strings are wrapped in double quotes
except the literal question mark; integers render as decimal; any other
argument type panics (modelled as `none`). -/
def quote : GoVal → Option String
  | .str s => if s = "?" then some s else some (⟨[dq]⟩ ++ s ++ ⟨[dq]⟩)
  | .int n => some (intRepr n)
  | .other _ => none

/-- Source `quotes`: comma-join of `quote` over the argument list; a
panic in any element aborts the whole call. -/
def quotes (args : List GoVal) : Option String :=
  (args.mapM quote).map (String.intercalate ",")

/-- Source `formatCommand`: the literal AT line; `=` and the quoted
arguments appear exactly when the argument list is non-empty. -/
def formatCommand (cmd : String) (args : List GoVal) : Option String :=
  match args with
  | [] => some ("AT" ++ cmd ++ "\r\n")
  | _ => (quotes args).map (fun q => "AT" ++ cmd ++ "=" ++ q ++ "\r\n")

/-- Source `unquote`: a token starting with a double quote has all
leading and trailing double quotes trimmed and stays a string; otherwise
a token accepted by `Atoi` becomes an integer; otherwise the token is
returned unchanged. -/
def unquote (s : String) : GoVal :=
  if goStartsWith s ⟨[dq]⟩ then .str (goTrimChar s dq)
  else match goAtoi s with
    | some n => .int n
    | none => .str s

/-- Length of the leading run of non-comma characters (the greedy second
alternative of the tokenizer regex). -/
def countNonComma : List Char → Nat
  | [] => 0
  | c :: t => if c = ',' then 0 else countNonComma t + 1

/-- Index of the first double quote in a list, if any. -/
def closeQuoteIdx : List Char → Option Nat
  | [] => none
  | c :: t => if c = dq then some 0 else (closeQuoteIdx t).map (· + 1)

/-- Length of the leftmost-first match of the Go regex pattern
(quoted-run OR non-comma-run) at the head of `s`: a token opened by a
double quote extends to the next double quote when one exists, otherwise
the greedy non-comma run (possibly empty, when the head is a comma). -/
def matchLen (s : List Char) : Nat :=
  match s with
  | [] => 0
  | c :: t =>
    if c = dq then
      match closeQuoteIdx t with
      | some j => j + 2
      | none => countNonComma (c :: t)
    else countNonComma (c :: t)

/-- Go `Regexp.FindAllString` loop for the tokenizer regex, in the
structural form: `justEnded` records whether the previous match ended
exactly at the current position (Go `prevMatchEnd == pos`), in which
case an empty match is rejected and the scan advances one character.
The scan position advances on every iteration, so any `fuel` above the
length of `s` is sufficient. -/
def findAllLoopAux : Nat → List Char → Bool → List (List Char)
  | 0, _, _ => []
  | fuel + 1, s, justEnded =>
    match matchLen s with
    | 0 =>
      match s with
      | [] => if justEnded then [] else [[]]
      | _ :: t =>
        if justEnded then findAllLoopAux fuel t false
        else [] :: findAllLoopAux fuel t false
    | k + 1 => s.take (k + 1) :: findAllLoopAux fuel (s.drop (k + 1)) true

def findAllLoop (s : List Char) (justEnded : Bool) : List (List Char) :=
  findAllLoopAux (s.length + 1) s justEnded

/-- Source `unquotes`: tokenize the raw argument text with the regex and
unquote every token. -/
def unquotes (s : String) : List GoVal :=
  (findAllLoop s.data false).map (fun m => unquote ⟨m⟩)

/-- Source `stringsUnquotes`: `unquotes` rendered back to strings with
`fmt.Sprint`. -/
def stringsUnquotes (s : String) : List String :=
  (unquotes s).map govalSprint

/-- Calendar time as produced by Go `time.Parse` for the device layout
(year, month, day, hour, minute, second; the layout carries no zone). -/
structure GoTime where
  year : Nat
  month : Nat
  day : Nat
  hour : Nat
  minute : Nat
  second : Nat
deriving DecidableEq, Repr

/-- Zero value of Go `time.Time`: January 1 of year 1, midnight. -/
def zeroGoTime : GoTime := ⟨1, 1, 1, 0, 0, 0⟩

/-- Exactly two decimal digits (a fixed-width numeric layout element). -/
def twoDigits : List Char → Option (Nat × List Char)
  | a :: b :: r =>
    match digitVal a, digitVal b with
    | some x, some y => some (10 * x + y, r)
    | _, _ => none
  | _ => none

/-- One or two decimal digits (the non-zero-padded hour element `15`
accepts either width). -/
def oneOrTwoDigits : List Char → Option (Nat × List Char)
  | a :: b :: r =>
    match digitVal a, digitVal b with
    | some x, some y => some (10 * x + y, r)
    | some x, none => some (x, b :: r)
    | _, _ => none
  | a :: r =>
    match digitVal a with
    | some x => some (x, r)
    | none => none
  | [] => none

def expectChar (c : Char) : List Char → Option (List Char)
  | d :: r => if d = c then some r else none
  | [] => none

def isLeapYear (y : Nat) : Bool :=
  y % 4 = 0 && (y % 100 ≠ 0 || y % 400 = 0)

def daysIn (y m : Nat) : Nat :=
  if m = 2 then (if isLeapYear y then 29 else 28)
  else if m = 4 || m = 6 || m = 9 || m = 11 then 30
  else 31

/-- Go `time.Parse` specialised to the device layout
`06/01/02,15:04:05`: fixed two-digit year/month/day/minute/second, one
or two digit hour, literal separators, no trailing text, with the range
checks Go performs (hour below 24, minute and second below 60, month in
1..12, day in 1..length of the month, two-digit year mapped to 1969-2068). -/
def goTimeParse (s : String) : Option GoTime := do
  let (yy, r1) ← twoDigits s.data
  let r2 ← expectChar '/' r1
  let (mo, r3) ← twoDigits r2
  let r4 ← expectChar '/' r3
  let (dy, r5) ← twoDigits r4
  let r6 ← expectChar ',' r5
  let (hr, r7) ← oneOrTwoDigits r6
  let r8 ← expectChar ':' r7
  let (mi, r9) ← twoDigits r8
  let r10 ← expectChar ':' r9
  let (se, r11) ← twoDigits r10
  if r11 ≠ [] then none
  else
    let year := if yy ≥ 69 then 1900 + yy else 2000 + yy
    if hr ≥ 24 || mi ≥ 60 || se ≥ 60 then none
    else if mo < 1 || mo > 12 then none
    else if dy < 1 || dy > daysIn year mo then none
    else some ⟨year, mo, dy, hr, mi, se⟩

/-- Source `parseTime` (src/util.go): slices off the trailing three
characters (the zone suffix) before parsing, ignoring the parse error,
so a malformed remainder yields the zero time.  The Go slice
`t[:len(t)-3]` panics when the input is shorter than three characters;
the panic is modelled as `none`. -/
def parseTime (t : String) : Option GoTime :=
  if t.data.length < 3 then none
  else some ((goTimeParse ⟨t.data.take (t.data.length - 3)⟩).getD zeroGoTime)

/-- Source table `gsm0338Encode` (first util.go variant, src/util.go
lines 89-143): GSM 03.38 codes, including the escape-prefixed extended
characters. -/
def gsm0338Encode : List (Char × String) :=
  [('@', "\x00"), ('£', "\x01"), ('$', "\x02"), ('¥', "\x03"),
   ('è', "\x04"), ('é', "\x05"), ('ù', "\x06"), ('ì', "\x07"),
   ('ò', "\x08"), ('Ç', "\x09"), ('\r', "\x0a"), ('Ø', "\x0b"),
   ('ø', "\x0c"), ('\n', "\x0d"), ('Å', "\x0e"), ('å', "\x0f"),
   ('Δ', "\x10"), ('_', "\x11"), ('Φ', "\x12"), ('Γ', "\x13"),
   ('Λ', "\x14"), ('Ω', "\x15"), ('Π', "\x16"), ('Ψ', "\x17"),
   ('Σ', "\x18"), ('Θ', "\x19"), ('Ξ', "\x1a"), ('Æ', "\x1c"),
   ('æ', "\x1d"), ('É', "\x1f"), ('¤', "\x24"), ('%', "\x25"),
   ('¡', "\x40"), ('Ä', "\x5b"), ('Ö', "\x5c"), ('Ñ', "\x5d"),
   ('Ü', "\x5e"), ('§', "\x5f"), ('ä', "\x7b"), ('ö', "\x7c"),
   ('ñ', "\x7d"), ('ü', "\x7e"), ('à', "\x7f"),
   ('€', "\x1be"), ('[', "\x1b<"), (bslash, "\x1b/"), (']', "\x1b>"),
   ('^', "\x1b^"), (lbrace, "\x1b("), ('|', "\x1b@"), (rbrace, "\x1b)"),
   ('~', "\x1b=")]

/-- Source table `gsm0338Decode` (first util.go variant, src/util.go
lines 145-199): the single-byte inverse table; the escape-prefixed pairs
are commented out in the source and therefore absent. -/
def gsm0338Decode : List (Char × Char) :=
  [('\x00', '@'), ('\x01', '£'), ('\x02', '$'), ('\x03', '¥'),
   ('\x04', 'è'), ('\x05', 'é'), ('\x06', 'ù'), ('\x07', 'ì'),
   ('\x08', 'ò'), ('\x09', 'Ç'), ('\x0a', '\r'), ('\x0b', 'Ø'),
   ('\x0c', 'ø'), ('\x0d', '\n'), ('\x0e', 'Å'), ('\x0f', 'å'),
   ('\x10', 'Δ'), ('\x11', '_'), ('\x12', 'Φ'), ('\x13', 'Γ'),
   ('\x14', 'Λ'), ('\x15', 'Ω'), ('\x16', 'Π'), ('\x17', 'Ψ'),
   ('\x18', 'Σ'), ('\x19', 'Θ'), ('\x1a', 'Ξ'), ('\x1c', 'Æ'),
   ('\x1d', 'æ'), ('\x1f', 'É'), ('\x24', '¤'), ('\x25', '%'),
   ('\x40', '¡'), ('\x5b', 'Ä'), ('\x5c', 'Ö'), ('\x5d', 'Ñ'),
   ('\x5e', 'Ü'), ('\x5f', '§'), ('\x7b', 'ä'), ('\x7c', 'ö'),
   ('\x7d', 'ñ'), ('\x7e', 'ü'), ('\x7f', 'à')]

/-- Source `gsmEncode` (first util.go variant, lines 202-212): mapped
characters emit their code, unmapped characters pass through verbatim. -/
def gsmEncode (s : String) : String :=
  s.data.foldl (fun acc c => acc ++ ((gsm0338Encode.lookup c).getD ⟨[c]⟩)) ""

/-- Source `gsmDecode` (first util.go variant, lines 215-225): mapped
code units decode to their character, unmapped ones pass through. -/
def gsmDecode (s : String) : String :=
  s.data.foldl (fun acc c => acc ++ ⟨[(gsm0338Decode.lookup c).getD c]⟩) ""

/-- The escape-prefixed extended subset of the 7-bit table. -/
def escapeSet : List Char :=
  [lbrace, rbrace, '[', ']', bslash, '^', '~', '|', '€']

/-- Source table `unicode` (second util.go variant, src/util.go lines
484-626): the 16-bit scheme, four hex characters per covered character,
covering Latin text plus a Persian/Arabic range. -/
def unicodeTable : List (Char × String) :=
  [('@', "0040"), ('$', "0024"), ('¥', "00A5"), ('\r', "000A"),
   ('\n', "000D"), ('_', "005F"), (' ', "0020"), ('!', "0021"),
   (dq, "0022"), ('#', "0023"), ('%', "0025"), ('&', "0026"),
   (Char.ofNat 39, "0027"), ('(', "0028"), (')', "0029"), ('*', "002A"),
   ('+', "002B"), (',', "002C"), ('-', "002D"), ('.', "002E"),
   ('/', "002F"), ('0', "0030"), ('1', "0031"), ('2', "0032"),
   ('3', "0033"), ('4', "0034"), ('5', "0035"), ('6', "0036"),
   ('7', "0037"), ('8', "0038"), ('9', "0039"), (':', "003A"),
   (';', "003B"), ('<', "003C"), ('=', "003D"), ('>', "003E"),
   ('?', "003F"), ('A', "0041"), ('B', "0042"), ('C', "0043"),
   ('D', "0044"), ('E', "0045"), ('F', "0046"), ('G', "0047"),
   ('H', "0048"), ('I', "0049"), ('J', "004A"), ('K', "004B"),
   ('L', "004C"), ('M', "004D"), ('N', "004E"), ('O', "004F"),
   ('P', "0050"), ('Q', "0051"), ('R', "0052"), ('S', "0053"),
   ('T', "0054"), ('U', "0055"), ('V', "0056"), ('W', "0057"),
   ('X', "0058"), ('Y', "0059"), ('Z', "005A"), ('a', "0061"),
   ('b', "0062"), ('c', "0063"), ('d', "0064"), ('e', "0065"),
   ('f', "0066"), ('g', "0067"), ('h', "0068"), ('i', "0069"),
   ('j', "006A"), ('k', "006B"), ('l', "006C"), ('m', "006D"),
   ('n', "006E"), ('o', "006F"), ('p', "0070"), ('q', "0071"),
   ('r', "0072"), ('s', "0073"), ('t', "0074"), ('u', "0075"),
   ('v', "0076"), ('w', "0077"), ('x', "0078"), ('y', "0079"),
   ('z', "007A"),
   ('[', "005B"), (bslash, "005C"), (']', "005D"),
   (lbrace, "007B"), ('|', "007C"), (rbrace, "007D"), ('~', "007E"),
   ('ا', "0627"), ('آ', "0622"), ('ب', "0628"), ('پ', "067E"),
   ('ت', "062A"), ('ث', "062B"), ('ج', "062C"), ('چ', "0686"),
   ('ح', "062D"), ('خ', "062E"), ('د', "062F"), ('ذ', "0630"),
   ('ر', "0631"), ('ز', "0632"), ('ژ', "0698"), ('س', "0633"),
   ('ش', "0634"), ('ص', "0635"), ('ض', "0636"), ('ط', "0637"),
   ('ظ', "0638"), ('ع', "0639"), ('غ', "063A"), ('ف', "0641"),
   ('ق', "0642"), ('ک', "0643"), ('گ', "06AF"), ('ل', "0644"),
   ('م', "0645"), ('ن', "0646"), ('و', "0648"), ('ه', "0647"),
   ('ی', "06CC"), ('۰', "0660"), ('۱', "0661"), ('۲', "0662"),
   ('۳', "0663"), ('۴', "0664"), ('۵', "0665"), ('۶', "0666"),
   ('۷', "0667"), ('۸', "0668"), ('۹', "0669")]

/-- Source `unicodeEncode` (second util.go variant, lines 640-648):
mapped characters emit their four hex characters, unmapped characters
are dropped. -/
def unicodeEncode (s : String) : String :=
  s.data.foldl (fun acc c => acc ++ ((unicodeTable.lookup c).getD "")) ""

/-- Uppercase hexadecimal digit for a value below sixteen. -/
def hexDigitU (n : Nat) : Char :=
  if n < 10 then Char.ofNat (48 + n) else Char.ofNat (55 + n)

/-- Modelled from the spec: the four uppercase hexadecimal characters of
the big-endian UTF-16 code unit of a Basic Multilingual Plane character
(the comparison point for the rendering claim about `unicodeEncode`). -/
def specUtf16Hex (c : Char) : String :=
  ⟨[hexDigitU (c.toNat / 4096 % 16), hexDigitU (c.toNat / 256 % 16),
    hexDigitU (c.toNat / 16 % 16), hexDigitU (c.toNat % 16)]⟩

def isUpperHexDigit (c : Char) : Bool :=
  ('0' ≤ c && c ≤ '9') || ('A' ≤ c && c ≤ 'F')

/-- Source `Message` (fields defaulted to their Go zero values when a
struct literal omits them: index 0, zero time, false flag). -/
structure Message where
  index : Int
  status : String
  telephone : String
  timestamp : GoTime
  body : String
  last : Bool
deriving DecidableEq, Repr

/-- Source `Packet`: the closed variant of reply kinds. -/
inductive Packet where
  | ok
  | error
  | message (m : Message)
  | messageNotification (area : String) (index : Int)
  | serviceStatus (s : String)
  | networkStatus (s : String)
  | smscAddress (args : List GoVal)
  | storageAreas (a b c : List String)
  | storageInfo (a1 a2 a3 a4 a5 a6 : Int)
  | unknown (name : String) (args : List GoVal)
deriving DecidableEq, Repr

/-- Result of `parsePacket`: a packet, the Go `nil` interface (the
`+ZUSIMR` suppression), or a panic (failed type assertion, index out of
range, or a panicking `parseTime`). -/
inductive PResult where
  | pkt (p : Packet)
  | nil
  | panicked
deriving DecidableEq, Repr

/-- Source `isFinalStatus` (src/util.go lines 861-866). -/
def isFinalStatus (status : String) : Bool :=
  status = "OK" || status = "ERROR" ||
  goContains status "+CMS ERROR" || goContains status "+CME ERROR"

def asInt : GoVal → Option Int
  | .int n => some n
  | _ => none

/-- Dispatch of `parsePacket` once the header has been split at the
first colon into `name` and raw argument text `uargs`
(src/util.go lines 877-966). -/
def parseByName (name uargs status body : String) (args : List GoVal) : PResult :=
  if name = "+ZUSIMR" then .nil
  else if name = "+ZPASR" then
    match args.get? 0 with
    | some (.str s) => .pkt (.serviceStatus s)
    | _ => .panicked
  else if name = "+ZDONR" then
    match args.get? 0 with
    | some (.str s) => .pkt (.networkStatus s)
    | _ => .panicked
  else if name = "+CMTI" then
    match args.get? 0, args.get? 1 with
    | some (.str s), some (.int n) => .pkt (.messageNotification s n)
    | _, _ => .panicked
  else if name = "+CSCA" then .pkt (.smscAddress args)
  else if name = "+CMGR" then
    match args.get? 1 with
    | none => .panicked
    | some a1 =>
      if a1 = .str "" then .pkt (.message ⟨0, "", "", zeroGoTime, body, false⟩)
      else
        match args.get? 0, a1, args.get? 3 with
        | some (.str st), .str tel, some (.str ts) =>
          match parseTime ts with
          | none => .panicked
          | some tm => .pkt (.message ⟨0, st, tel, tm, body, false⟩)
        | _, _, _ => .panicked
  else if name = "+CMGL" then
    match args.get? 2 with
    | none => .panicked
    | some (.int tel) =>
      match args.get? 0, args.get? 1 with
      | some (.int i), some (.str st) =>
        .pkt (.message ⟨i, st, intRepr tel, zeroGoTime, body,
          if status = "" then false else true⟩)
      | _, _ => .panicked
    | some a2 =>
      match args.get? 0, args.get? 1, a2, args.get? 4 with
      | some (.int i), some (.str st), .str tel, some (.str ts) =>
        match parseTime ts with
        | none => .panicked
        | some tm =>
          .pkt (.message ⟨i, st, tel, tm, body,
            if status = "" then false else true⟩)
      | _, _, _, _ => .panicked
  else if name = "+CPMS" then
    if goStartsWith uargs "(" then
      match splitNOn [')', ',', '('] 3 (goTrimSuffix (goTrimPrefix uargs "(") ")").data with
      | [a, b, c] =>
        .pkt (.storageAreas (stringsUnquotes ⟨a⟩) (stringsUnquotes ⟨b⟩)
          (stringsUnquotes ⟨c⟩))
      | _ => .panicked
    else
      match args.filterMap asInt with
      | [i0, i1, i2, i3, i4, i5] => .pkt (.storageInfo i0 i1 i2 i3 i4 i5)
      | [i0, i1, i2, i3] => .pkt (.storageInfo i0 i1 i2 i3 0 0)
      | _ => .pkt (.unknown name args)
  else if name = "" then
    if status = "OK" then .pkt .ok else .pkt .error
  else .pkt (.unknown name args)

/-- Source `parsePacket` (src/util.go lines 868-966). -/
def parsePacket (status header body : String) : PResult :=
  if header = "" && isFinalStatus status then
    if status = "OK" then .pkt .ok else .pkt .error
  else
    match splitHeader header with
    | none => .pkt (.unknown header [])
    | some (name, raw) =>
      let uargs := goTrimSpace raw
      parseByName name uargs status body (unquotes uargs)

/-- Name part of a header (text before the first colon), when present. -/
def headerName (h : String) : Option String :=
  (splitHeader h).map (·.1)

/-- Leftmost match of the pattern `AT` followed by a plus and at least
one capital letter, at the head of the list; returns the captured group
(the plus and the maximal capital run). -/
def matchATPlus (l : List Char) : Option (List Char) :=
  match l with
  | 'A' :: 'T' :: '+' :: rest =>
    let run := rest.takeWhile (fun c => 'A' ≤ c && c ≤ 'Z')
    if run = [] then none else some ('+' :: run)
  | _ => none

/-- Source regexp `reQuestion` applied with `FindStringSubmatch`:
leftmost occurrence, captured group. -/
def reQuestionFind : List Char → Option (List Char)
  | [] => none
  | c :: t =>
    match matchATPlus (c :: t) with
    | some r => some r
    | none => reQuestionFind t

/-- State of the `listen` goroutine across loop iterations
(src/util.go lines 968-1026). -/
structure ListenState where
  echo : String
  last : String
  header : String
  body : String
deriving DecidableEq, Repr

/-- Processing of one outgoing command line by `listen` (the `tx` case):
record the captured command prefix (when the pattern matches) and the
trimmed echo line. -/
def listenTx (st : ListenState) (line : String) : ListenState :=
  { st with
    last := match reQuestionFind line.data with
      | some r => ⟨r⟩
      | none => st.last,
    echo := goTrimRightCRLF line }

/-- Processing of one incoming line by `listen` (the `in` case):
returns the next state together with the packets sent on the response
channel and on the out-of-band channel during that iteration, or `none`
when `parsePacket` panics and the goroutine dies.  In the final
(unsolicited) branch the source parses the line with a synthetic `OK`
status but the out-of-band send `self.OOB <- p` is commented out
(src/util.go line 1003), so nothing is ever emitted there. -/
def listenLine (st : ListenState) (line : String) :
    Option (ListenState × List PResult × List PResult) :=
  if line = st.echo then some (st, [], [])
  else if st.last ≠ "" && goStartsWith line st.last then
    if st.header ≠ "" then
      match parsePacket "" st.header st.body with
      | .panicked => none
      | r => some ({ st with header := line, body := "" }, [r], [])
    else some ({ st with header := line, body := "" }, [], [])
  else if isFinalStatus line then
    match parsePacket line st.header st.body with
    | .panicked => none
    | r => some ({ st with header := "", body := "" }, [r], [])
  else if st.header ≠ "" then
    some ({ st with body := st.body ++ line }, [], [])
  else if line = "> " then some (st, [], [])
  else
    match parsePacket "OK" line "" with
    | .panicked => none
    | _ => some (st, [], [])

/-- Iterated `listenLine` over a list of incoming lines, accumulating
the response-channel and out-of-band outputs in order. -/
def listenRun (st : ListenState) : List String →
    Option (ListenState × List PResult × List PResult)
  | [] => some (st, [], [])
  | l :: ls =>
    match listenLine st l with
    | none => none
    | some (st1, rx, oob) =>
      match listenRun st1 ls with
      | none => none
      | some (st2, rx2, oob2) => some (st2, rx ++ rx2, oob ++ oob2)

/-- Outcome of the `ListMessages` consumption loop. -/
inductive ListOutcome where
  | ok (msgs : List Message)
  | deviceError
  | unexpectedError
  | blocked
deriving DecidableEq, Repr

/-- The accumulation loop of `ListMessages` (src/util.go lines 789-800):
append `Message` packets until one carries the last-in-list flag;
any non-message packet is the "Unexpected error" return; an exhausted
response stream means the Go code would block forever on `<-self.rx`. -/
def listMessagesLoop : PResult → List PResult → ListOutcome
  | .pkt (.message m), rest =>
    if m.last then .ok [m]
    else
      match rest with
      | [] => .blocked
      | q :: qs =>
        match listMessagesLoop q qs with
        | .ok l => .ok (m :: l)
        | r => r
  | _, _ => .unexpectedError

/-- Source `ListMessages` (src/util.go lines 778-802) viewed as a
function of the stream of packets delivered on the response channel:
an `ERROR` first packet is the `send` error, a bare `OK` is the empty
list, otherwise the accumulation loop runs. -/
def listMessagesRun : List PResult → ListOutcome
  | [] => .blocked
  | p :: rest =>
    match p with
    | .pkt .error => .deviceError
    | .pkt .ok => .ok []
    | _ => listMessagesLoop p rest

/-- A field wrapped in double quotes, at the character-list level (the
shape of one token of a well-formed quoted argument list). -/
def quotedField (f : String) : List Char := dq :: (f.data ++ [dq])

/-- Comma join of double-quoted fields: the character-list shape of the
argument text of one parenthesized group of a `+CPMS` query reply. -/
def joinQuoted : List String → List Char
  | [] => []
  | [f] => quotedField f
  | f :: rest => quotedField f ++ ',' :: joinQuoted rest

theorem lookup_val_mem {α β : Type} [BEq α] (l : List (α × β)) (c : α) (v : β)
    (h : l.lookup c = some v) : v ∈ l.map Prod.snd := by
  induction l with
  | nil => simp [List.lookup] at h
  | cons p t ih =>
    obtain ⟨k, b⟩ := p
    rw [List.lookup] at h
    by_cases hk : (c == k) = true
    · simp [hk] at h
      simp [h]
    · simp [Bool.not_eq_true] at hk
      simp [hk] at h
      simpa using Or.inr (ih h)

/-- C1: on an unsolicited `+CMTI` line with no outstanding command
(empty echo, empty expected prefix, no pending header), the engine
parses the line with a synthetic `OK` status into a non-nil
`MessageNotification` packet, and it is never delivered to the response
channel — but, because the out-of-band send `self.OOB <- p` is commented
out in the source (src/util.go line 1003), it is not delivered to the
out-of-band channel either: both output lists of the iteration are
empty and the packet is silently dropped, contradicting the claim. -/
theorem c1_unsolicited_packet_dropped :
    parsePacket "OK" "+CMTI: \"SM\",4" "" =
      PResult.pkt (Packet.messageNotification "SM" 4) ∧
    listenLine ⟨"", "", "", ""⟩ "+CMTI: \"SM\",4" =
      some (⟨"", "", "", ""⟩, [], []) := by decide

/-- C3: `quote` wraps every string in double quotes except the literal
question mark, renders integers in decimal, and on any other argument
type panics (modelled as `none`) with the message
`Unsupported argument type`, which is an uncontrolled abort rather than
the reported `UnsupportedArgument` error the claim requires. -/
theorem c3_quote_cases :
    (∀ s : String,
      quote (.str s) = some (if s = "?" then s else ⟨[dq]⟩ ++ s ++ ⟨[dq]⟩)) ∧
    (∀ n : Int, quote (.int n) = some (intRepr n)) ∧
    (∀ t : String, quote (.other t) = none) := by
  refine ⟨fun s => ?_, fun n => rfl, fun t => rfl⟩
  by_cases h : s = "?" <;> simp [quote, h]

/-- C4 (amended): `parseTime` is total on every string of length at
least three; it discards the trailing three-character zone suffix,
parses the remainder with the device layout, returns the parsed value on
success and the zero time on any malformed remainder.  (On strings
shorter than three characters the source panics; see the
counterexample.) -/
theorem c4_parseTime_total_from_three (t : String) (h : 3 ≤ t.data.length) :
    ∃ v, parseTime t = some v ∧
      (goTimeParse ⟨t.data.take (t.data.length - 3)⟩ = none → v = zeroGoTime) ∧
      (∀ u, goTimeParse ⟨t.data.take (t.data.length - 3)⟩ = some u → v = u) := by
  have hlt : ¬ t.data.length < 3 := Nat.not_lt.mpr h
  refine ⟨(goTimeParse ⟨t.data.take (t.data.length - 3)⟩).getD zeroGoTime, ?_, ?_, ?_⟩
  · unfold parseTime
    rw [if_neg hlt]
  · intro hn; rw [hn]; rfl
  · intro u hu; rw [hu]; rfl

/-- C4 counterexample: on the empty string — an input shorter than three
characters — the Go slice `t[:len(t)-3]` panics (modelled as `none`)
instead of returning the zero time value as the claim states. -/
theorem c4_counterexample : parseTime "" = none := rfl

/-- C4 witness: the theorem applied to a concrete well-formed device
timestamp. -/
theorem c4_witness :
    3 ≤ ("21/04/12,11:15:12+00" : String).data.length ∧
    ∃ v, parseTime "21/04/12,11:15:12+00" = some v ∧
      (goTimeParse ⟨("21/04/12,11:15:12+00" : String).data.take
        (("21/04/12,11:15:12+00" : String).data.length - 3)⟩ = none → v = zeroGoTime) ∧
      (∀ u, goTimeParse ⟨("21/04/12,11:15:12+00" : String).data.take
        (("21/04/12,11:15:12+00" : String).data.length - 3)⟩ = some u → v = u) :=
  ⟨by decide, c4_parseTime_total_from_three "21/04/12,11:15:12+00" (by decide)⟩

/-- C6 counterexample: the carriage return is covered by the 16-bit
table, yet `unicodeEncode` renders it as `000A`, which is not its
big-endian UTF-16 code unit `000D` (the table swaps CR and LF, and also
maps the Persian digits and keheh to their Arabic counterparts). -/
theorem c6_counterexample :
    unicodeEncode "\r" = "000A" ∧ specUtf16Hex '\r' = "000D" ∧
    unicodeEncode "\r" ≠ specUtf16Hex '\r' := by decide

theorem sum_map_const_four (l : List Char) : (l.map (fun _ => (4 : Nat))).sum = 4 * l.length := by
  induction l with
  | nil => simp
  | cons c t ih =>
    simp [ih]
    ring

theorem unicode_foldl_length (l : List Char) (acc : String) :
    (l.foldl (fun a c => a ++ ((unicodeTable.lookup c).getD "")) acc).data.length =
    acc.data.length +
      (l.map (fun c => (((unicodeTable.lookup c).getD "") : String).data.length)).sum := by
  induction l generalizing acc with
  | nil => simp
  | cons c t ih =>
    simp only [List.foldl_cons, List.map_cons, List.sum_cons]
    rw [ih]
    have hap : ((acc ++ ((unicodeTable.lookup c).getD "")).data.length)
        = acc.data.length + (((unicodeTable.lookup c).getD "") : String).data.length := by
      show (acc.data ++ _).length = _
      exact List.length_append _ _
    rw [hap]
    omega

theorem unicode_lookup_len4 (c : Char) (v : String)
    (h : unicodeTable.lookup c = some v) : v.data.length = 4 := by
  have hv := lookup_val_mem unicodeTable c v h
  have hall : ∀ w ∈ unicodeTable.map Prod.snd, (w : String).data.length = 4 := by decide
  exact hall v hv

/-- C6 (amended): every character covered by the 16-bit table is
rendered as exactly four uppercase hexadecimal characters, and the
renderings are concatenated with no separator, so a fully covered
`n`-character input yields a `4 * n`-character output; but the four
digits are the code unit assigned by the table, which differs from the
UTF-16 code unit of the character for CR and LF (swapped) and for the
Persian keheh and digits (mapped to Arabic forms); uncovered characters
are dropped. -/
theorem c6_unicode_len (s : String)
    (hcov : ∀ c ∈ s.data, (unicodeTable.lookup c).isSome = true) :
    (∀ p ∈ unicodeTable,
      (p.2 : String).data.length = 4 ∧ (p.2 : String).data.all isUpperHexDigit = true) ∧
    (unicodeEncode s).data.length = 4 * s.data.length := by
  refine ⟨by decide, ?_⟩
  have hdef : unicodeEncode s =
      s.data.foldl (fun a c => a ++ ((unicodeTable.lookup c).getD "")) "" := rfl
  rw [hdef, unicode_foldl_length]
  have hmap : s.data.map (fun c => (((unicodeTable.lookup c).getD "") : String).data.length) =
      s.data.map (fun _ => 4) := by
    apply List.map_congr_left
    intro c hc
    obtain ⟨v, hv⟩ := Option.isSome_iff_exists.mp (hcov c hc)
    rw [hv]
    exact unicode_lookup_len4 c v hv
  rw [hmap, sum_map_const_four]
  simp [Nat.mul_comm]

/-- C6 witness: the amended theorem applied to a fully covered mixed
Latin and Persian input of four characters, yielding sixteen output
characters. -/
theorem c6_witness :
    (∀ c ∈ ("Aب1گ" : String).data, (unicodeTable.lookup c).isSome = true) ∧
    (∀ p ∈ unicodeTable,
      (p.2 : String).data.length = 4 ∧ (p.2 : String).data.all isUpperHexDigit = true) ∧
    (unicodeEncode "Aب1گ").data.length = 4 * ("Aب1گ" : String).data.length :=
  ⟨by decide, c6_unicode_len "Aب1گ" (by decide)⟩

/-- C8: for every character of the 7-bit GSM 03.38 encode table outside
the escape-prefixed extended subset, encoding then decoding the
one-character string returns it unchanged. -/
theorem c8_gsm_roundtrip (p : Char × String) (hp : p ∈ gsm0338Encode)
    (hesc : p.1 ∉ escapeSet) : gsmDecode (gsmEncode ⟨[p.1]⟩) = ⟨[p.1]⟩ := by
  have hall : ∀ q ∈ gsm0338Encode, q.1 ∉ escapeSet →
      gsmDecode (gsmEncode ⟨[q.1]⟩) = ⟨[q.1]⟩ := by decide
  exact hall p hp hesc

/-- C8 witness: the round trip at the at-sign entry of the table. -/
theorem c8_witness : gsmDecode (gsmEncode ⟨['@']⟩) = ⟨['@']⟩ :=
  c8_gsm_roundtrip ('@', "\x00") (by decide) (by decide)

/-- C9: `formatCommand` produces `AT` plus the mnemonic, an equals sign
and the comma-joined quoted arguments exactly when the argument list is
non-empty, and CRLF; in particular `+CMGS` with the single string
argument `+15551234` formats to `AT+CMGS="+15551234"` plus CRLF. -/
theorem c9_formatCommand :
    formatCommand "+CMGS" [GoVal.str "+15551234"] = some "AT+CMGS=\"+15551234\"\r\n" ∧
    (∀ cmd : String, formatCommand cmd [] = some ("AT" ++ cmd ++ "\r\n")) ∧
    (∀ (cmd : String) (args : List GoVal) (q : String),
      quotes args = some q → args ≠ [] →
      formatCommand cmd args = some ("AT" ++ cmd ++ "=" ++ q ++ "\r\n")) := by
  refine ⟨by decide, fun cmd => rfl, fun cmd args q hq hne => ?_⟩
  match args with
  | [] => exact absurd rfl hne
  | a :: t =>
    show (quotes (a :: t)).map _ = _
    rw [hq]
    rfl

/-- C9 witness: the non-empty-argument conjunct applied to a concrete
mixed integer and string argument list. -/
theorem c9_witness :
    formatCommand "+CNMI" [GoVal.int 2, GoVal.str "x"] = some "AT+CNMI=2,\"x\"\r\n" :=
  c9_formatCommand.2.2 "+CNMI" [GoVal.int 2, GoVal.str "x"] "2,\"x\"" (by decide) (by decide)

theorem splitHeader_ne_empty (h : String) (p : String × String)
    (hs : splitHeader h = some p) : h ≠ "" := by
  intro he
  rw [he] at hs
  simp [splitHeader] at hs

theorem parsePacket_some_header (status h b name raw : String)
    (hsplit : splitHeader h = some (name, raw)) :
    parsePacket status h b =
      parseByName name (goTrimSpace raw) status b (unquotes (goTrimSpace raw)) := by
  have hne : h ≠ "" := splitHeader_ne_empty h (name, raw) hsplit
  unfold parsePacket
  rw [hsplit]
  simp [hne]

theorem parseByName_message_last (name u status b : String) (args : List GoVal)
    (m : Message) (h : parseByName name u status b args = .pkt (.message m)) :
    m.last = (if name = "+CMGL" then (if status = "" then false else true) else false) := by
  unfold parseByName at h
  by_cases h1 : name = "+ZUSIMR"
  · rw [if_pos h1] at h
    exact PResult.noConfusion h
  rw [if_neg h1] at h
  by_cases h2 : name = "+ZPASR"
  · rw [if_pos h2] at h
    repeat' split at h
    all_goals first
      | exact PResult.noConfusion h
      | (injection h with hp; exact Packet.noConfusion hp)
  rw [if_neg h2] at h
  by_cases h3 : name = "+ZDONR"
  · rw [if_pos h3] at h
    repeat' split at h
    all_goals first
      | exact PResult.noConfusion h
      | (injection h with hp; exact Packet.noConfusion hp)
  rw [if_neg h3] at h
  by_cases h4 : name = "+CMTI"
  · rw [if_pos h4] at h
    repeat' split at h
    all_goals first
      | exact PResult.noConfusion h
      | (injection h with hp; exact Packet.noConfusion hp)
  rw [if_neg h4] at h
  by_cases h5 : name = "+CSCA"
  · rw [if_pos h5] at h
    injection h with hp
    exact Packet.noConfusion hp
  rw [if_neg h5] at h
  by_cases h6 : name = "+CMGR"
  · rw [if_pos h6] at h
    subst h6
    repeat' split at h
    all_goals first
      | exact PResult.noConfusion h
      | (injection h with hp; exact Packet.noConfusion hp)
      | (injection h with hp; injection hp with hm; rw [← hm]; simp_all)
  rw [if_neg h6] at h
  by_cases h7 : name = "+CMGL"
  · rw [if_pos h7] at h
    subst h7
    repeat' split at h
    all_goals first
      | exact PResult.noConfusion h
      | (injection h with hp; exact Packet.noConfusion hp)
      | (injection h with hp; injection hp with hm; rw [← hm]; simp_all)
  rw [if_neg h7] at h
  by_cases h8 : name = "+CPMS"
  · rw [if_pos h8] at h
    repeat' split at h
    all_goals first
      | exact PResult.noConfusion h
      | (injection h with hp; exact Packet.noConfusion hp)
  rw [if_neg h8] at h
  by_cases h9 : name = ""
  · rw [if_pos h9] at h
    repeat' split at h
    all_goals first
      | exact PResult.noConfusion h
      | (injection h with hp; exact Packet.noConfusion hp)
  rw [if_neg h9] at h
  injection h with hp
  exact Packet.noConfusion hp

/-- C5 counterexample: a `+CMGL` header in the integer-telephone variant
with a fifth argument present parses to a `Message` whose timestamp is
the zero value, not the parsed device time of the fifth argument, so the
timestamp is not set "in either variant" as the claim states. -/
theorem c5_counterexample :
    parsePacket "OK" "+CMGL: 1,\"REC READ\",15551234,,\"21/04/12,11:15:12+00\"" "hi" =
      PResult.pkt (Packet.message ⟨1, "REC READ", "15551234", zeroGoTime, "hi", true⟩) ∧
    parseTime "21/04/12,11:15:12+00" = some ⟨2021, 4, 12, 11, 15, 12⟩ ∧
    zeroGoTime ≠ (⟨2021, 4, 12, 11, 15, 12⟩ : GoTime) := by decide

/-- C5 (amended): for a `+CMGL` header, when the third argument is an
integer the telephone field is its decimal rendering and the timestamp
is always the zero value (even when a fifth argument is present); when
the third argument is a string it is taken as is, a fifth argument is
then required (its absence or a panicking `parseTime` aborts the parse)
and the timestamp is its parsed device time; in both variants the
last-in-list flag is set exactly when the terminal status is non-empty. -/
theorem c5_cmgl_fields (h b status raw : String)
    (hsplit : splitHeader h = some ("+CMGL", raw)) :
    (∀ (i tel : Int) (st : String) (rest : List GoVal),
      unquotes (goTrimSpace raw) = GoVal.int i :: GoVal.str st :: GoVal.int tel :: rest →
      parsePacket status h b =
        .pkt (.message ⟨i, st, intRepr tel, zeroGoTime, b,
          if status = "" then false else true⟩)) ∧
    (∀ (i : Int) (st tel : String) (a3 : GoVal) (ts : String) (rest : List GoVal)
      (v : GoTime),
      unquotes (goTrimSpace raw) =
        GoVal.int i :: GoVal.str st :: GoVal.str tel :: a3 :: GoVal.str ts :: rest →
      parseTime ts = some v →
      parsePacket status h b =
        .pkt (.message ⟨i, st, tel, v, b, if status = "" then false else true⟩)) := by
  rw [parsePacket_some_header status h b "+CMGL" raw hsplit]
  constructor
  · intro i tel st rest hargs
    rw [hargs]
    rfl
  · intro i st tel a3 ts rest v hargs htime
    rw [hargs]
    have hred : parseByName "+CMGL" (goTrimSpace raw) status b
        (GoVal.int i :: GoVal.str st :: GoVal.str tel :: a3 :: GoVal.str ts :: rest) =
        (match parseTime ts with
         | none => PResult.panicked
         | some tm => PResult.pkt (.message ⟨i, st, tel, tm, b,
             if status = "" then false else true⟩)) := rfl
    rw [hred, htime]

/-- C5 witness: the amended theorem applied to one concrete header of
each device variant. -/
theorem c5_witness :
    parsePacket "OK" "+CMGL: 7,\"REC READ\",15551234,,\"21/04/12,11:15:12+00\"" "b1" =
      PResult.pkt (Packet.message ⟨7, "REC READ", "15551234", zeroGoTime, "b1", true⟩) ∧
    parsePacket "" "+CMGL: 8,\"REC READ\",\"+155\",,\"21/04/12,11:16:13+00\"" "b2" =
      PResult.pkt (Packet.message ⟨8, "REC READ", "+155",
        ⟨2021, 4, 12, 11, 16, 13⟩, "b2", false⟩) := by
  constructor
  · exact (c5_cmgl_fields "+CMGL: 7,\"REC READ\",15551234,,\"21/04/12,11:15:12+00\""
      "b1" "OK" " 7,\"REC READ\",15551234,,\"21/04/12,11:15:12+00\"" (by decide)).1
      7 15551234 "REC READ"
      [GoVal.str "", GoVal.str "21/04/12,11:15:12+00"] (by decide)
  · exact (c5_cmgl_fields "+CMGL: 8,\"REC READ\",\"+155\",,\"21/04/12,11:16:13+00\""
      "b2" "" " 8,\"REC READ\",\"+155\",,\"21/04/12,11:16:13+00\"" (by decide)).2
      8 "REC READ" "+155"
      (GoVal.str "") "21/04/12,11:16:13+00" [] ⟨2021, 4, 12, 11, 16, 13⟩
      (by decide) (by decide)

theorem goStartsWith_ne_empty (s p : String) (h : goStartsWith s p = true)
    (hp : p ≠ "") : s ≠ "" := by
  intro he
  subst he
  obtain ⟨c, t, hct⟩ : ∃ c t, p.data = c :: t := by
    cases hd : p.data with
    | nil => exact absurd (by cases p; simp_all) hp
    | cons c t => exact ⟨c, t, rfl⟩
  rw [goStartsWith, hct] at h
  simp [List.isPrefixOf] at h

theorem listen_step_echo (st : ListenState) :
    listenLine st st.echo = some (st, [], []) := by
  unfold listenLine
  simp

theorem listen_step_cont_new (st : ListenState) (line : String)
    (hne : line ≠ st.echo) (hlast : st.last ≠ "")
    (hpre : goStartsWith line st.last = true) (hhdr : st.header = "") :
    listenLine st line = some ({ st with header := line, body := "" }, [], []) := by
  unfold listenLine
  simp [hne, hlast, hpre, hhdr]

theorem listen_step_cont_flush (st : ListenState) (line : String) (r : PResult)
    (hne : line ≠ st.echo) (hlast : st.last ≠ "")
    (hpre : goStartsWith line st.last = true) (hhdr : st.header ≠ "")
    (hp : parsePacket "" st.header st.body = r) (hr : r ≠ .panicked) :
    listenLine st line = some ({ st with header := line, body := "" }, [r], []) := by
  unfold listenLine
  simp only [hne, hlast, hpre, hhdr, hp]
  cases r with
  | pkt p => simp [hne, hlast, hpre, hhdr]
  | nil => simp [hne, hlast, hpre, hhdr]
  | panicked => exact absurd rfl hr

theorem listen_step_final (st : ListenState) (line : String) (r : PResult)
    (hne : line ≠ st.echo)
    (hpre : goStartsWith line st.last = false)
    (hfin : isFinalStatus line = true)
    (hp : parsePacket line st.header st.body = r) (hr : r ≠ .panicked) :
    listenLine st line = some ({ st with header := "", body := "" }, [r], []) := by
  unfold listenLine
  simp only [hne, hpre, hfin, hp]
  cases r with
  | pkt p => simp [hne, hpre, hfin]
  | nil => simp [hne, hpre, hfin]
  | panicked => exact absurd rfl hr

theorem listen_step_body (st : ListenState) (line : String)
    (hne : line ≠ st.echo)
    (hpre : goStartsWith line st.last = false)
    (hfin : isFinalStatus line = false) (hhdr : st.header ≠ "") :
    listenLine st line = some ({ st with body := st.body ++ line }, [], []) := by
  unfold listenLine
  simp [hne, hpre, hfin, hhdr]

/-- C2: for a transcript in which the `+CMGL` command (echoed by the
device) is answered by two `+CMGL` header lines, each followed by one
body line that is neither an echo, a continuation, nor a terminal
status, and then the terminal line `OK`, the engine delivers exactly the
two parsed messages in arrival order on the response channel (and
nothing out of band), and the `ListMessages` loop returns exactly those
two entries, with the last-in-list flag false on the first and true on
the second. -/
theorem c2_listMessages (h1 b1 h2 b2 : String) (m1 m2 : Message)
    (hs1 : goStartsWith h1 "+CMGL" = true) (hs2 : goStartsWith h2 "+CMGL" = true)
    (hb1 : goStartsWith b1 "+CMGL" = false) (hb2 : goStartsWith b2 "+CMGL" = false)
    (hfb1 : isFinalStatus b1 = false) (hfb2 : isFinalStatus b2 = false)
    (he1 : h1 ≠ "AT+CMGL=\"ALL\"") (he2 : h2 ≠ "AT+CMGL=\"ALL\"")
    (heb1 : b1 ≠ "AT+CMGL=\"ALL\"") (heb2 : b2 ≠ "AT+CMGL=\"ALL\"")
    (hraw2 : ∃ raw2, splitHeader h2 = some ("+CMGL", raw2))
    (hp1 : parsePacket "" h1 b1 = .pkt (.message m1))
    (hp2 : parsePacket "OK" h2 b2 = .pkt (.message m2)) :
    formatCommand "+CMGL" [GoVal.str "ALL"] = some "AT+CMGL=\"ALL\"\r\n" ∧
    listenRun (listenTx ⟨"", "", "", ""⟩ "AT+CMGL=\"ALL\"\r\n")
        ["AT+CMGL=\"ALL\"", h1, b1, h2, b2, "OK"] =
      some (⟨"AT+CMGL=\"ALL\"", "+CMGL", "", ""⟩,
        [.pkt (.message m1), .pkt (.message m2)], []) ∧
    listMessagesRun [.pkt (.message m1), .pkt (.message m2)] = .ok [m1, m2] ∧
    m1.last = false ∧ m2.last = true := by
  have htx : listenTx ⟨"", "", "", ""⟩ "AT+CMGL=\"ALL\"\r\n" =
      ⟨"AT+CMGL=\"ALL\"", "+CMGL", "", ""⟩ := by decide
  have hh1ne : h1 ≠ "" := goStartsWith_ne_empty h1 "+CMGL" hs1 (by decide)
  have hh2ne : h2 ≠ "" := goStartsWith_ne_empty h2 "+CMGL" hs2 (by decide)
  have hm1 : m1.last = false := by
    revert hp1
    unfold parsePacket
    cases hsp : splitHeader h1 with
    | none => intro hx; simp [hh1ne] at hx
    | some p =>
      obtain ⟨name, raw⟩ := p
      intro hx
      simp only [hh1ne] at hx
      simp at hx
      have := parseByName_message_last name (goTrimSpace raw) "" b1 _ m1 hx
      simpa using this
  have hm2 : m2.last = true := by
    obtain ⟨raw2, hraw⟩ := hraw2
    rw [parsePacket_some_header "OK" h2 b2 "+CMGL" raw2 hraw] at hp2
    have := parseByName_message_last "+CMGL" (goTrimSpace raw2) "OK" b2 _ m2 hp2
    simpa using this
  rw [htx]
  set st1 : ListenState := ⟨"AT+CMGL=\"ALL\"", "+CMGL", "", ""⟩ with hst1
  have e1 : listenLine st1 "AT+CMGL=\"ALL\"" = some (st1, [], []) :=
    listen_step_echo st1
  have e2 : listenLine st1 h1 = some (⟨"AT+CMGL=\"ALL\"", "+CMGL", h1, ""⟩, [], []) :=
    listen_step_cont_new st1 h1 he1 (show ("+CMGL" : String) ≠ "" by decide) hs1 rfl
  have e3 : listenLine ⟨"AT+CMGL=\"ALL\"", "+CMGL", h1, ""⟩ b1 =
      some (⟨"AT+CMGL=\"ALL\"", "+CMGL", h1, b1⟩, [], []) := by
    have := listen_step_body ⟨"AT+CMGL=\"ALL\"", "+CMGL", h1, ""⟩ b1 heb1 hb1 hfb1 hh1ne
    simpa using this
  have e4 : listenLine ⟨"AT+CMGL=\"ALL\"", "+CMGL", h1, b1⟩ h2 =
      some (⟨"AT+CMGL=\"ALL\"", "+CMGL", h2, ""⟩, [.pkt (.message m1)], []) :=
    listen_step_cont_flush ⟨"AT+CMGL=\"ALL\"", "+CMGL", h1, b1⟩ h2 _ he2
      (show ("+CMGL" : String) ≠ "" by decide) hs2 hh1ne hp1 (by simp)
  have e5 : listenLine ⟨"AT+CMGL=\"ALL\"", "+CMGL", h2, ""⟩ b2 =
      some (⟨"AT+CMGL=\"ALL\"", "+CMGL", h2, b2⟩, [], []) := by
    have := listen_step_body ⟨"AT+CMGL=\"ALL\"", "+CMGL", h2, ""⟩ b2 heb2 hb2 hfb2 hh2ne
    simpa using this
  have e6 : listenLine ⟨"AT+CMGL=\"ALL\"", "+CMGL", h2, b2⟩ "OK" =
      some (⟨"AT+CMGL=\"ALL\"", "+CMGL", "", ""⟩, [.pkt (.message m2)], []) :=
    listen_step_final ⟨"AT+CMGL=\"ALL\"", "+CMGL", h2, b2⟩ "OK" _
      (show ("OK" : String) ≠ "AT+CMGL=\"ALL\"" by decide)
      (show goStartsWith "OK" "+CMGL" = false by decide)
      (show isFinalStatus "OK" = true by decide) hp2 (by simp)
  refine ⟨by decide, ?_, ?_, hm1, hm2⟩
  · simp only [listenRun, hst1, e1, e2, e3, e4, e5, e6]
    rfl
  · simp [listMessagesRun, listMessagesLoop, hm1, hm2]

/-- C2 witness: the theorem applied to a concrete two-entry transcript. -/
theorem c2_witness :
    formatCommand "+CMGL" [GoVal.str "ALL"] = some "AT+CMGL=\"ALL\"\r\n" ∧
    listenRun (listenTx ⟨"", "", "", ""⟩ "AT+CMGL=\"ALL\"\r\n")
        ["AT+CMGL=\"ALL\"",
         "+CMGL: 1,\"REC READ\",\"+15551234\",,\"21/04/12,11:15:12+00\"",
         "hello",
         "+CMGL: 2,\"REC READ\",\"+15551235\",,\"21/04/12,11:16:12+00\"",
         "world",
         "OK"] =
      some (⟨"AT+CMGL=\"ALL\"", "+CMGL", "", ""⟩,
        [.pkt (.message ⟨1, "REC READ", "+15551234", ⟨2021, 4, 12, 11, 15, 12⟩,
           "hello", false⟩),
         .pkt (.message ⟨2, "REC READ", "+15551235", ⟨2021, 4, 12, 11, 16, 12⟩,
           "world", true⟩)], []) ∧
    listMessagesRun
        [.pkt (.message ⟨1, "REC READ", "+15551234", ⟨2021, 4, 12, 11, 15, 12⟩,
           "hello", false⟩),
         .pkt (.message ⟨2, "REC READ", "+15551235", ⟨2021, 4, 12, 11, 16, 12⟩,
           "world", true⟩)] =
      .ok [⟨1, "REC READ", "+15551234", ⟨2021, 4, 12, 11, 15, 12⟩, "hello", false⟩,
           ⟨2, "REC READ", "+15551235", ⟨2021, 4, 12, 11, 16, 12⟩, "world", true⟩] ∧
    (⟨1, "REC READ", "+15551234", ⟨2021, 4, 12, 11, 15, 12⟩, "hello", false⟩ :
      Message).last = false ∧
    (⟨2, "REC READ", "+15551235", ⟨2021, 4, 12, 11, 16, 12⟩, "world", true⟩ :
      Message).last = true := by
  apply c2_listMessages
  case hraw2 =>
    exact ⟨" 2,\"REC READ\",\"+15551235\",,\"21/04/12,11:16:12+00\"", by decide⟩
  all_goals decide

theorem digitChar_facts :
    ∀ m < 10, digitVal (digitChar m) = some m ∧ digitChar m ≠ dq ∧
      digitChar m ≠ '+' ∧ digitChar m ≠ '-' := by decide

theorem natDigitsRevAux_ne_nil (fuel n : Nat) (h : n < fuel) :
    natDigitsRevAux fuel n ≠ [] := by
  cases fuel with
  | zero => omega
  | succ k =>
    unfold natDigitsRevAux
    split_ifs <;> simp

theorem natDigitsRevAux_mem (fuel n : Nat) (h : n < fuel) :
    ∀ c ∈ natDigitsRevAux fuel n, ∃ m, m < 10 ∧ c = digitChar m := by
  induction fuel generalizing n with
  | zero => omega
  | succ k ih =>
    intro c hc
    unfold natDigitsRevAux at hc
    by_cases h10 : n < 10
    · rw [if_pos h10] at hc
      simp at hc
      exact ⟨n, h10, hc⟩
    · rw [if_neg h10] at hc
      rcases List.mem_cons.mp hc with hc | hc
      · exact ⟨n % 10, Nat.mod_lt n (by omega), hc⟩
      · have hdiv : n / 10 < n := Nat.div_lt_self (by omega) (by omega)
        exact ih (n / 10) (by omega) c hc

theorem foldl_atoiStep_digits (fuel n : Nat) (h : n < fuel) (acc : Nat) :
    ((natDigitsRevAux fuel n).reverse).foldl atoiStep (some acc) =
      some (acc * 10 ^ (natDigitsRevAux fuel n).length + n) := by
  induction fuel generalizing n acc with
  | zero => omega
  | succ k ih =>
    unfold natDigitsRevAux
    by_cases h10 : n < 10
    · rw [if_pos h10]
      have hd := (digitChar_facts n h10).1
      simp [atoiStep, hd]
    · rw [if_neg h10]
      have hdiv : n / 10 < n := Nat.div_lt_self (by omega) (by omega)
      rw [List.reverse_cons, List.foldl_append, ih (n / 10) (by omega) acc]
      have hd := (digitChar_facts (n % 10) (Nat.mod_lt n (by omega))).1
      simp only [List.foldl_cons, List.foldl_nil, atoiStep, hd, List.length_cons]
      have hmod : 10 * (n / 10) + n % 10 = n := Nat.div_add_mod n 10
      rw [pow_succ]
      exact congrArg some (by ring_nf; omega)

theorem digitsToNat_natRepr (n : Nat) : digitsToNat (natRepr n).data = some n := by
  have hne : natDigitsRevAux (n + 1) n ≠ [] :=
    natDigitsRevAux_ne_nil (n + 1) n (by omega)
  have hv := foldl_atoiStep_digits (n + 1) n (by omega) 0
  rcases hrev : (natDigitsRevAux (n + 1) n).reverse with _ | ⟨c, t⟩
  · exact absurd (by simpa using congrArg List.reverse hrev) hne
  · have hdata : (natRepr n).data = c :: t := by
      show (natDigitsRevAux (n + 1) n).reverse = c :: t
      exact hrev
    rw [hdata]
    show (c :: t).foldl atoiStep (some 0) = some n
    rw [← hrev, hv]
    simp

theorem natRepr_head_digit (n : Nat) :
    ∃ m t, m < 10 ∧ (natRepr n).data = digitChar m :: t := by
  have hne : natDigitsRevAux (n + 1) n ≠ [] :=
    natDigitsRevAux_ne_nil (n + 1) n (by omega)
  rcases hrev : (natDigitsRevAux (n + 1) n).reverse with _ | ⟨c, t⟩
  · exact absurd (by simpa using congrArg List.reverse hrev) hne
  · have hc : c ∈ natDigitsRevAux (n + 1) n := by
      rw [← List.mem_reverse, hrev]
      exact List.mem_cons_self c t
    obtain ⟨m, hm, hcm⟩ := natDigitsRevAux_mem (n + 1) n (by omega) c hc
    exact ⟨m, t, hm, by rw [show (natRepr n).data =
      (natDigitsRevAux (n + 1) n).reverse from rfl, hrev, hcm]⟩

theorem goAtoi_natRepr (n : Nat) (h : n ≤ 2 ^ 63 - 1) :
    goAtoi (natRepr n) = some (Int.ofNat n) := by
  obtain ⟨m, t, hm, hdata⟩ := natRepr_head_digit n
  have hplus : digitChar m ≠ '+' := (digitChar_facts m hm).2.2.1
  have hminus : digitChar m ≠ '-' := (digitChar_facts m hm).2.2.2
  unfold goAtoi
  rw [hdata]
  have hdig : digitsToNat (digitChar m :: t) = some n := by
    rw [← hdata]
    exact digitsToNat_natRepr n
  split
  · simp_all
  · simp_all
  · rw [hdig]
    show (if n ≤ 2 ^ 63 - 1 then some (Int.ofNat n) else none) = some (Int.ofNat n)
    rw [if_pos h]

theorem goAtoi_intRepr (n : Int) (h1 : -(2 ^ 63) ≤ n) (h2 : n ≤ 2 ^ 63 - 1) :
    goAtoi (intRepr n) = some n := by
  by_cases hn : n < 0
  · have hrepr : intRepr n = "-" ++ natRepr (-n).toNat := by
      unfold intRepr
      rw [if_pos hn]
    rw [hrepr]
    have hred : goAtoi ("-" ++ natRepr (-n).toNat) =
        (match digitsToNat (natRepr (-n).toNat).data with
         | some v => if v ≤ 2 ^ 63 then some (-(Int.ofNat v)) else none
         | none => none) := rfl
    rw [hred, digitsToNat_natRepr]
    show (if (-n).toNat ≤ 2 ^ 63 then some (-(Int.ofNat (-n).toNat)) else none) = some n
    have hb : (-n).toNat ≤ 2 ^ 63 := by omega
    rw [if_pos hb]
    have : Int.ofNat (-n).toNat = -n := Int.toNat_of_nonneg (by omega)
    rw [this]
    simp
  · have hrepr : intRepr n = natRepr n.toNat := by
      unfold intRepr
      rw [if_neg hn]
    rw [hrepr, goAtoi_natRepr n.toNat (by omega)]
    have : Int.ofNat n.toNat = n := Int.toNat_of_nonneg (by omega)
    rw [this]

theorem dq_not_head_natRepr (n : Nat) :
    goStartsWith (natRepr n) ⟨[dq]⟩ = false := by
  obtain ⟨m, t, hm, hdata⟩ := natRepr_head_digit n
  have hdq : digitChar m ≠ dq := (digitChar_facts m hm).2.1
  unfold goStartsWith
  rw [hdata]
  show ([dq].isPrefixOf (digitChar m :: t)) = false
  simp [List.isPrefixOf]
  intro hcontra
  exact absurd hcontra.symm hdq

theorem dq_not_head_intRepr (n : Int) :
    goStartsWith (intRepr n) ⟨[dq]⟩ = false := by
  by_cases hn : n < 0
  · have hrepr : intRepr n = "-" ++ natRepr (-n).toNat := by
      unfold intRepr
      rw [if_pos hn]
    rw [hrepr]
    unfold goStartsWith
    show ([dq].isPrefixOf ('-' :: (natRepr (-n).toNat).data)) = false
    simp [List.isPrefixOf, dq]
  · have hrepr : intRepr n = natRepr n.toNat := by
      unfold intRepr
      rw [if_neg hn]
    rw [hrepr]
    exact dq_not_head_natRepr n.toNat

theorem string_eta (s : String) : (⟨s.data⟩ : String) = s := by
  cases s
  rfl

theorem dropWhile_rev_id (p : Char → Bool) (l : List Char)
    (ht : ∀ c, l.getLast? = some c → p c = false) :
    (l.reverse.dropWhile p).reverse = l := by
  rcases hrev : l.reverse with _ | ⟨x, xs⟩
  · have : l = [] := by simpa using congrArg List.reverse hrev
    simp [this]
  · have hx : l.getLast? = some x := by
      rw [List.getLast?_eq_head?_reverse, hrev]
      rfl
    have hpx : p x = false := ht x hx
    rw [List.dropWhile_cons, if_neg (by simp [hpx]), ← hrev, List.reverse_reverse]

theorem dropWhile_rev_pop (p : Char → Bool) (d : Char) (l : List Char) (hp : p d = true)
    (ht : ∀ c, l.getLast? = some c → p c = false) :
    ((l ++ [d]).reverse.dropWhile p).reverse = l := by
  have h2 : (l ++ [d]).reverse = d :: l.reverse := by simp
  rw [h2, List.dropWhile_cons, if_pos hp]
  exact dropWhile_rev_id p l ht

theorem dropWhile_wrap (p : Char → Bool) (d : Char) (l : List Char) (hp : p d = true)
    (hh : ∀ c, l.head? = some c → p c = false)
    (ht : ∀ c, l.getLast? = some c → p c = false) :
    (((d :: (l ++ [d])).dropWhile p).reverse.dropWhile p).reverse = l := by
  rw [List.dropWhile_cons, if_pos hp]
  cases l with
  | nil => simp [hp]
  | cons c t =>
    have hc : p c = false := hh c rfl
    rw [List.cons_append, List.dropWhile_cons, if_neg (by simp [hc]), ← List.cons_append]
    exact dropWhile_rev_pop p d (c :: t) hp ht

theorem dropWhile_lead (p : Char → Bool) (d : Char) (l : List Char) (hp : p d = true)
    (hh : ∀ c, l.head? = some c → p c = false)
    (ht : ∀ c, l.getLast? = some c → p c = false) :
    (((d :: l).dropWhile p).reverse.dropWhile p).reverse = l := by
  rw [List.dropWhile_cons, if_pos hp]
  cases l with
  | nil => simp
  | cons c t =>
    have hc : p c = false := hh c rfl
    rw [List.dropWhile_cons, if_neg (by simp [hc])]
    exact dropWhile_rev_id p (c :: t) ht

theorem goTrimChar_wrap (s : String) (hh : goStartsWith s ⟨[dq]⟩ = false)
    (ht : goEndsWith s ⟨[dq]⟩ = false) :
    goTrimChar (⟨[dq]⟩ ++ s ++ ⟨[dq]⟩) dq = s := by
  have hdata : ((⟨[dq]⟩ ++ s ++ ⟨[dq]⟩ : String)).data = dq :: (s.data ++ [dq]) := by
    show ([dq] ++ s.data) ++ [dq] = _
    simp
  have hhd : ∀ c, s.data.head? = some c → (fun x => decide (x = dq)) c = false := by
    intro c hc
    unfold goStartsWith at hh
    rcases hsd : s.data with _ | ⟨c0, t⟩
    · rw [hsd] at hc; simp at hc
    · rw [hsd] at hc
      simp at hc
      rw [hsd] at hh
      simp [List.isPrefixOf] at hh
      subst hc
      simp
      intro hcontra
      exact hh hcontra.symm
  have htl : ∀ c, s.data.getLast? = some c → (fun x => decide (x = dq)) c = false := by
    intro c hc
    unfold goEndsWith at ht
    unfold List.isSuffixOf at ht
    have hc2 : s.data.reverse.head? = some c := by
      rw [← List.getLast?_eq_head?_reverse]
      exact hc
    rcases hsr : s.data.reverse with _ | ⟨c0, t⟩
    · rw [hsr] at hc2; simp at hc2
    · rw [hsr] at hc2
      simp at hc2
      rw [hsr] at ht
      simp [List.isPrefixOf] at ht
      subst hc2
      simp
      intro hcontra
      exact ht hcontra.symm
  unfold goTrimChar
  rw [hdata]
  rw [dropWhile_wrap _ dq s.data (by simp) hhd htl]

/-- C10: quoting then unquoting is the identity on representable values:
any string that neither begins nor ends with a double quote (including
the literal question mark and digit strings, which stay strings) comes
back as the same string, and any 64-bit integer comes back as the same
integer. -/
theorem c10_quote_unquote :
    (∀ s : String, goStartsWith s ⟨[dq]⟩ = false → goEndsWith s ⟨[dq]⟩ = false →
      ∃ q, quote (.str s) = some q ∧ unquote q = .str s) ∧
    (∀ n : Int, -(2 ^ 63) ≤ n → n ≤ 2 ^ 63 - 1 →
      ∃ q, quote (.int n) = some q ∧ unquote q = .int n) := by
  constructor
  · intro s hh ht
    by_cases hq : s = "?"
    · subst hq
      exact ⟨"?", rfl, by decide⟩
    · refine ⟨⟨[dq]⟩ ++ s ++ ⟨[dq]⟩, ?_, ?_⟩
      · simp only [quote, if_neg hq]
      · unfold unquote
        have hpre : goStartsWith (⟨[dq]⟩ ++ s ++ ⟨[dq]⟩) ⟨[dq]⟩ = true := by
          unfold goStartsWith
          have : ((⟨[dq]⟩ ++ s ++ ⟨[dq]⟩ : String)).data = dq :: (s.data ++ [dq]) := by
            show ([dq] ++ s.data) ++ [dq] = _
            simp
          rw [this]
          simp [List.isPrefixOf]
        rw [if_pos hpre, goTrimChar_wrap s hh ht]
  · intro n h1 h2
    refine ⟨intRepr n, rfl, ?_⟩
    unfold unquote
    rw [if_neg (by rw [dq_not_head_intRepr n]; exact Bool.false_ne_true),
      goAtoi_intRepr n h1 h2]

/-- C10 witness: the round trip at a concrete string and a concrete
negative integer. -/
theorem c10_witness :
    (∃ q, quote (.str "SM") = some q ∧ unquote q = .str "SM") ∧
    (∃ q, quote (.int (-42)) = some q ∧ unquote q = .int (-42)) :=
  ⟨c10_quote_unquote.1 "SM" (by decide) (by decide),
   c10_quote_unquote.2 (-42) (by decide) (by decide)⟩

theorem strData_append (a b : String) : (a ++ b).data = a.data ++ b.data := rfl

theorem closeQuoteIdx_append (u : List Char) (hu : ∀ c ∈ u, c ≠ dq) (r : List Char) :
    closeQuoteIdx (u ++ dq :: r) = some u.length := by
  induction u with
  | nil => simp [closeQuoteIdx]
  | cons c u ih =>
    have hc : c ≠ dq := hu c (by simp)
    have hrec := ih (fun x hx => hu x (by simp [hx]))
    show (if c = dq then some 0 else (closeQuoteIdx (u ++ dq :: r)).map (· + 1)) =
      some (u.length + 1)
    rw [if_neg hc, hrec]
    rfl

theorem matchLen_quoted (f : List Char) (hf : ∀ c ∈ f, c ≠ dq) (r : List Char) :
    matchLen (dq :: (f ++ dq :: r)) = f.length + 2 := by
  have h1 : closeQuoteIdx (f ++ dq :: r) = some f.length := closeQuoteIdx_append f hf r
  show (match closeQuoteIdx (f ++ dq :: r) with
    | some j => j + 2
    | none => countNonComma (dq :: (f ++ dq :: r))) = f.length + 2
  rw [h1]

theorem findAllLoopAux_nil_true (fuel : Nat) : findAllLoopAux fuel [] true = [] := by
  cases fuel <;> rfl

theorem quotedField_length (f : String) : (quotedField f).length = f.data.length + 2 := by
  simp [quotedField]

theorem loop_joinQuoted (fs : List String) (hne : fs ≠ [])
    (hcl : ∀ f ∈ fs, ∀ c ∈ f.data, c ≠ dq) :
    ∀ fuel, (joinQuoted fs).length < fuel →
    findAllLoopAux fuel (joinQuoted fs) false = fs.map quotedField := by
  induction fs with
  | nil => exact absurd rfl hne
  | cons f rest ih =>
    intro fuel hfuel
    obtain ⟨k, rfl⟩ : ∃ k, fuel = k + 1 := ⟨fuel - 1, by omega⟩
    have hfq : ∀ c ∈ f.data, c ≠ dq := hcl f (by simp)
    cases rest with
    | nil =>
      have hjoin : joinQuoted [f] = dq :: (f.data ++ dq :: []) := rfl
      rw [hjoin] at hfuel ⊢
      simp only [findAllLoopAux, matchLen_quoted f.data hfq []]
      have hlen : (dq :: (f.data ++ dq :: [])).length = f.data.length + 2 := by simp
      show (dq :: (f.data ++ dq :: [])).take (f.data.length + 1 + 1) ::
        findAllLoopAux k ((dq :: (f.data ++ dq :: [])).drop (f.data.length + 1 + 1)) true = _
      have htk : (dq :: (f.data ++ dq :: [])).take (f.data.length + 1 + 1) =
          dq :: (f.data ++ dq :: []) := by
        rw [← hlen]
        simp
      have hdp : (dq :: (f.data ++ dq :: [])).drop (f.data.length + 1 + 1) = [] := by
        rw [← hlen]
        simp
      rw [htk, hdp, findAllLoopAux_nil_true]
      rfl
    | cons g rest2 =>
      have hjoin : joinQuoted (f :: g :: rest2) =
          dq :: (f.data ++ dq :: (',' :: joinQuoted (g :: rest2))) := by
        show quotedField f ++ ',' :: joinQuoted (g :: rest2) = _
        simp [quotedField]
      rw [hjoin] at hfuel ⊢
      simp only [findAllLoopAux, matchLen_quoted f.data hfq (',' :: joinQuoted (g :: rest2))]
      show (dq :: (f.data ++ dq :: (',' :: joinQuoted (g :: rest2)))).take
          (f.data.length + 1 + 1) ::
        findAllLoopAux k ((dq :: (f.data ++ dq :: (',' :: joinQuoted (g :: rest2)))).drop
          (f.data.length + 1 + 1)) true = _
      have hshape : dq :: (f.data ++ dq :: (',' :: joinQuoted (g :: rest2))) =
          quotedField f ++ ',' :: joinQuoted (g :: rest2) := by
        simp [quotedField]
      have htk : (dq :: (f.data ++ dq :: (',' :: joinQuoted (g :: rest2)))).take
          (f.data.length + 1 + 1) = quotedField f := by
        rw [hshape, show f.data.length + 1 + 1 = (quotedField f).length from
          (quotedField_length f).symm]
        exact List.take_left _ _
      have hdp : (dq :: (f.data ++ dq :: (',' :: joinQuoted (g :: rest2)))).drop
          (f.data.length + 1 + 1) = ',' :: joinQuoted (g :: rest2) := by
        rw [hshape, show f.data.length + 1 + 1 = (quotedField f).length from
          (quotedField_length f).symm]
        exact List.drop_left _ _
      rw [htk, hdp]
      obtain ⟨k2, rfl⟩ : ∃ k2, k = k2 + 1 := ⟨k - 1, by simp at hfuel; omega⟩
      have hcomma : findAllLoopAux (k2 + 1) (',' :: joinQuoted (g :: rest2)) true =
          findAllLoopAux k2 (joinQuoted (g :: rest2)) false := by
        simp only [findAllLoopAux]
        rfl
      rw [hcomma, ih (by simp) (fun x hx => hcl x (by simp [hx])) k2 (by simp at hfuel; omega)]
      rfl

theorem not_starts_dq (f : String) (hf : ∀ c ∈ f.data, c ≠ dq) :
    goStartsWith f ⟨[dq]⟩ = false := by
  unfold goStartsWith
  rcases hd : f.data with _ | ⟨c, t⟩
  · rfl
  · have hc : c ≠ dq := hf c (by simp [hd])
    simp [List.isPrefixOf]
    intro hcontra
    exact absurd hcontra.symm hc

theorem not_ends_dq (f : String) (hf : ∀ c ∈ f.data, c ≠ dq) :
    goEndsWith f ⟨[dq]⟩ = false := by
  unfold goEndsWith
  unfold List.isSuffixOf
  rcases hd : f.data.reverse with _ | ⟨c, t⟩
  · rfl
  · have hc : c ∈ f.data := by
      rw [← List.mem_reverse, hd]
      exact List.mem_cons_self c t
    have hcd : c ≠ dq := hf c hc
    simp [List.isPrefixOf]
    intro hcontra
    exact absurd hcontra.symm hcd

theorem unquote_quotedField (f : String) (hf : ∀ c ∈ f.data, c ≠ dq) :
    unquote ⟨quotedField f⟩ = .str f := by
  have heq : (⟨quotedField f⟩ : String) = ⟨[dq]⟩ ++ f ++ ⟨[dq]⟩ := by
    apply congrArg String.mk
    show dq :: (f.data ++ [dq]) = ([dq] ++ f.data) ++ [dq]
    simp
  rw [heq]
  unfold unquote
  have hpre : goStartsWith (⟨[dq]⟩ ++ f ++ ⟨[dq]⟩) ⟨[dq]⟩ = true := by
    unfold goStartsWith
    show [dq].isPrefixOf (([dq] ++ f.data) ++ [dq]) = true
    simp [List.isPrefixOf]
  rw [if_pos hpre, goTrimChar_wrap f (not_starts_dq f hf) (not_ends_dq f hf)]

theorem stringsUnquotes_joinQuoted (fs : List String) (hne : fs ≠ [])
    (hcl : ∀ f ∈ fs, ∀ c ∈ f.data, c ≠ dq) :
    stringsUnquotes ⟨joinQuoted fs⟩ = fs := by
  unfold stringsUnquotes unquotes findAllLoop
  have hdata : (⟨joinQuoted fs⟩ : String).data = joinQuoted fs := rfl
  rw [hdata, loop_joinQuoted fs hne hcl _ (by omega)]
  rw [List.map_map, List.map_map]
  have hcong : ∀ f ∈ fs,
      ((govalSprint ∘ fun m => unquote ⟨m⟩) ∘ quotedField) f = id f := by
    intro f hfin
    show govalSprint (unquote ⟨quotedField f⟩) = f
    rw [unquote_quotedField f (hcl f hfin)]
    rfl
  conv_rhs => rw [← List.map_id fs]
  exact List.map_congr_left hcong

theorem take_append_len (l1 l2 : List Char) : (l1 ++ l2).take l1.length = l1 := by
  simp

theorem drop_append_plus (l1 l2 : List Char) (k : Nat) :
    (l1 ++ l2).drop (l1.length + k) = l2.drop k := by
  induction l1 with
  | nil => simp
  | cons c t ih =>
    have harith : t.length + 1 + k = (t.length + k) + 1 := by omega
    rw [List.cons_append, List.length_cons, harith, List.drop_succ_cons, ih]

theorem findSub_group (g : List Char) (hg : ∀ c ∈ g, c ≠ ')') (r : List Char) :
    findSub [')', ',', '('] (g ++ ')' :: ',' :: '(' :: r) = some g.length := by
  induction g with
  | nil =>
    show (if [')', ',', '('].isPrefixOf (')' :: ',' :: '(' :: r) then some 0
      else (findSub [')', ',', '('] (',' :: '(' :: r)).map (· + 1)) = some 0
    rw [if_pos (by simp [List.isPrefixOf])]
  | cons c g ih =>
    have hc : c ≠ ')' := hg c (by simp)
    have hbeq : (')' == c) = false := beq_eq_false_iff_ne.mpr (Ne.symm hc)
    have hnp : [')', ',', '('].isPrefixOf (c :: (g ++ ')' :: ',' :: '(' :: r)) = false := by
      simp [List.isPrefixOf, hbeq]
    show (if [')', ',', '('].isPrefixOf (c :: (g ++ ')' :: ',' :: '(' :: r)) then some 0
      else (findSub [')', ',', '('] (g ++ ')' :: ',' :: '(' :: r)).map (· + 1)) =
      some (g.length + 1)
    rw [if_neg (by rw [hnp]; exact Bool.false_ne_true),
      ih (fun x hx => hg x (by simp [hx]))]
    rfl

theorem splitNOn_groups (g1 g2 g3 : List Char)
    (h1 : ∀ c ∈ g1, c ≠ ')') (h2 : ∀ c ∈ g2, c ≠ ')') :
    splitNOn [')', ',', '('] 3
      (g1 ++ ')' :: ',' :: '(' :: (g2 ++ ')' :: ',' :: '(' :: g3)) = [g1, g2, g3] := by
  have hf1 := findSub_group g1 h1 (g2 ++ ')' :: ',' :: '(' :: g3)
  show (match findSub [')', ',', '(']
      (g1 ++ ')' :: ',' :: '(' :: (g2 ++ ')' :: ',' :: '(' :: g3)) with
    | none => [g1 ++ ')' :: ',' :: '(' :: (g2 ++ ')' :: ',' :: '(' :: g3)]
    | some i =>
      (g1 ++ ')' :: ',' :: '(' :: (g2 ++ ')' :: ',' :: '(' :: g3)).take i ::
        splitNOn [')', ',', '('] 2
          ((g1 ++ ')' :: ',' :: '(' :: (g2 ++ ')' :: ',' :: '(' :: g3)).drop (i + 3))) =
    [g1, g2, g3]
  rw [hf1]
  have htk : (g1 ++ ')' :: ',' :: '(' :: (g2 ++ ')' :: ',' :: '(' :: g3)).take g1.length =
      g1 := take_append_len g1 _
  have hdp : (g1 ++ ')' :: ',' :: '(' :: (g2 ++ ')' :: ',' :: '(' :: g3)).drop
      (g1.length + 3) = g2 ++ ')' :: ',' :: '(' :: g3 :=
    drop_append_plus g1 _ 3
  show (g1 ++ ')' :: ',' :: '(' :: (g2 ++ ')' :: ',' :: '(' :: g3)).take g1.length ::
      splitNOn [')', ',', '('] 2
        ((g1 ++ ')' :: ',' :: '(' :: (g2 ++ ')' :: ',' :: '(' :: g3)).drop
          (g1.length + 3)) = [g1, g2, g3]
  rw [htk, hdp]
  have hf2 := findSub_group g2 h2 g3
  show g1 :: (match findSub [')', ',', '('] (g2 ++ ')' :: ',' :: '(' :: g3) with
    | none => [g2 ++ ')' :: ',' :: '(' :: g3]
    | some i =>
      (g2 ++ ')' :: ',' :: '(' :: g3).take i ::
        splitNOn [')', ',', '('] 1 ((g2 ++ ')' :: ',' :: '(' :: g3).drop (i + 3))) =
    [g1, g2, g3]
  rw [hf2]
  have htk2 : (g2 ++ ')' :: ',' :: '(' :: g3).take g2.length = g2 := take_append_len g2 _
  have hdp2 : (g2 ++ ')' :: ',' :: '(' :: g3).drop (g2.length + 3) = g3 :=
    drop_append_plus g2 _ 3
  show g1 :: (g2 ++ ')' :: ',' :: '(' :: g3).take g2.length ::
      splitNOn [')', ',', '('] 1 ((g2 ++ ')' :: ',' :: '(' :: g3).drop (g2.length + 3)) =
    [g1, g2, g3]
  rw [htk2, hdp2]
  rfl

theorem splitHeader_cpms_data (h : String) (rest : List Char)
    (hd : h.data = '+' :: 'C' :: 'P' :: 'M' :: 'S' :: ':' :: rest) :
    splitHeader h = some ("+CPMS", ⟨rest⟩) := by
  unfold splitHeader
  rw [hd]
  have htw : ('+' :: 'C' :: 'P' :: 'M' :: 'S' :: ':' :: rest).takeWhile (· ≠ ':') =
      ['+', 'C', 'P', 'M', 'S'] := by
    simp [List.takeWhile_cons]
  have hdw : ('+' :: 'C' :: 'P' :: 'M' :: 'S' :: ':' :: rest).dropWhile (· ≠ ':') =
      ':' :: rest := by
    simp [List.dropWhile_cons]
  simp only [htw, hdw]

theorem goTrimSpace_lead (l : List Char)
    (hh : ∀ c, l.head? = some c → isGoSpace c = false)
    (ht : ∀ c, l.getLast? = some c → isGoSpace c = false) :
    goTrimSpace ⟨' ' :: l⟩ = ⟨l⟩ := by
  unfold goTrimSpace
  show (⟨(((' ' :: l).dropWhile isGoSpace).reverse.dropWhile isGoSpace).reverse⟩ : String) =
    ⟨l⟩
  rw [dropWhile_lead isGoSpace ' ' l rfl hh ht]

theorem goTrimSuffix_rparen (Z : List Char) : goTrimSuffix ⟨Z ++ [')']⟩ ")" = ⟨Z⟩ := by
  unfold goTrimSuffix
  have hend : goEndsWith ⟨Z ++ [')']⟩ ")" = true := by
    unfold goEndsWith
    show ([')'].isSuffixOf (Z ++ [')'])) = true
    unfold List.isSuffixOf
    simp [List.isPrefixOf]
  rw [if_pos hend]
  show (⟨(Z ++ [')']).take ((Z ++ [')']).length - 1)⟩ : String) = ⟨Z⟩
  have hl : (Z ++ [')']).length - 1 = Z.length := by simp
  rw [hl]
  exact congrArg String.mk (take_append_len Z [')'])

theorem joinQuoted_no_char (fs : List String) (x : Char) (hx1 : dq ≠ x) (hx2 : ',' ≠ x)
    (hcl : ∀ f ∈ fs, ∀ c ∈ f.data, c ≠ x) : ∀ c ∈ joinQuoted fs, c ≠ x := by
  induction fs with
  | nil => simp [joinQuoted]
  | cons f rest ih =>
    cases rest with
    | nil =>
      intro c hc
      simp [joinQuoted, quotedField] at hc
      rcases hc with hc | hc | hc
      · rw [hc]; exact hx1
      · exact hcl f (by simp) c hc
      · rw [hc]; exact hx1
    | cons g rest2 =>
      intro c hc
      have hj : joinQuoted (f :: g :: rest2) =
          quotedField f ++ ',' :: joinQuoted (g :: rest2) := rfl
      rw [hj] at hc
      rcases List.mem_append.mp hc with hc | hc
      · simp [quotedField] at hc
        rcases hc with hc | hc | hc
        · rw [hc]; exact hx1
        · exact hcl f (by simp) c hc
        · rw [hc]; exact hx1
      · rcases List.mem_cons.mp hc with hc | hc
        · rw [hc]; exact hx2
        · exact ih (fun ff hf => hcl ff (by simp [hf])) c hc

/-- C7: a `+CPMS` query reply whose argument text is three parenthesized
quoted groups of three fields each (fields free of double quotes and
closing parentheses) parses to a `StorageAreas` packet holding exactly
three sequences of exactly three strings, equal in order to the
unquoted listed values. -/
theorem c7_cpms_query (f1 f2 f3 f4 f5 f6 f7 f8 f9 status body : String)
    (hcl : ∀ f ∈ [f1, f2, f3, f4, f5, f6, f7, f8, f9], ∀ c ∈ f.data,
      c ≠ dq ∧ c ≠ ')') :
    parsePacket status
      ("+CPMS: (" ++ (⟨joinQuoted [f1, f2, f3]⟩ : String) ++ "),(" ++
        (⟨joinQuoted [f4, f5, f6]⟩ : String) ++ "),(" ++
        (⟨joinQuoted [f7, f8, f9]⟩ : String) ++ ")") body =
      .pkt (.storageAreas [f1, f2, f3] [f4, f5, f6] [f7, f8, f9]) := by
  have hq1 : ∀ f ∈ [f1, f2, f3], ∀ c ∈ f.data, c ≠ dq := by
    intro f hf c hc
    exact (hcl f (by simp at hf ⊢; tauto) c hc).1
  have hq2 : ∀ f ∈ [f4, f5, f6], ∀ c ∈ f.data, c ≠ dq := by
    intro f hf c hc
    exact (hcl f (by simp at hf ⊢; tauto) c hc).1
  have hq3 : ∀ f ∈ [f7, f8, f9], ∀ c ∈ f.data, c ≠ dq := by
    intro f hf c hc
    exact (hcl f (by simp at hf ⊢; tauto) c hc).1
  have hp1 : ∀ c ∈ joinQuoted [f1, f2, f3], c ≠ ')' := by
    apply joinQuoted_no_char _ _ (by decide) (by decide)
    intro f hf c hc
    exact (hcl f (by simp at hf ⊢; tauto) c hc).2
  have hp2 : ∀ c ∈ joinQuoted [f4, f5, f6], c ≠ ')' := by
    apply joinQuoted_no_char _ _ (by decide) (by decide)
    intro f hf c hc
    exact (hcl f (by simp at hf ⊢; tauto) c hc).2
  set J1 := joinQuoted [f1, f2, f3] with hJ1
  set J2 := joinQuoted [f4, f5, f6] with hJ2
  set J3 := joinQuoted [f7, f8, f9] with hJ3
  set Z := J1 ++ ')' :: ',' :: '(' :: (J2 ++ ')' :: ',' :: '(' :: J3) with hZ
  have hdata : ("+CPMS: (" ++ (⟨J1⟩ : String) ++ "),(" ++ (⟨J2⟩ : String) ++ "),(" ++
      (⟨J3⟩ : String) ++ ")").data =
      '+' :: 'C' :: 'P' :: 'M' :: 'S' :: ':' :: (' ' :: '(' :: (Z ++ [')'])) := by
    show ((((((['+', 'C', 'P', 'M', 'S', ':', ' ', '('] ++ J1) ++ [')', ',', '(']) ++ J2) ++
        [')', ',', '(']) ++ J3) ++ [')']) =
      '+' :: 'C' :: 'P' :: 'M' :: 'S' :: ':' :: (' ' :: '(' :: (Z ++ [')']))
    rw [hZ]
    simp [List.append_assoc]
  have hsplit : splitHeader ("+CPMS: (" ++ (⟨J1⟩ : String) ++ "),(" ++ (⟨J2⟩ : String) ++
      "),(" ++ (⟨J3⟩ : String) ++ ")") =
      some ("+CPMS", ⟨' ' :: '(' :: (Z ++ [')'])⟩) :=
    splitHeader_cpms_data _ _ hdata
  rw [parsePacket_some_header status _ body "+CPMS" _ hsplit]
  have htrim : goTrimSpace ⟨' ' :: '(' :: (Z ++ [')'])⟩ = ⟨'(' :: (Z ++ [')'])⟩ := by
    apply goTrimSpace_lead
    · intro c hc
      simp at hc
      rw [← hc]
      rfl
    · intro c hc
      have hget : ('(' :: (Z ++ [')'])).getLast? = some ')' := by
        show (('(' :: Z) ++ [')']).getLast? = some ')'
        exact List.getLast?_concat _
      rw [hget] at hc
      simp at hc
      rw [← hc]
      rfl
  rw [htrim]
  have hparen : goStartsWith ⟨'(' :: (Z ++ [')'])⟩ "(" = true := by
    unfold goStartsWith
    show (['('].isPrefixOf ('(' :: (Z ++ [')']))) = true
    simp [List.isPrefixOf]
  have hbr : parseByName "+CPMS" ⟨'(' :: (Z ++ [')'])⟩ status body
      (unquotes ⟨'(' :: (Z ++ [')'])⟩) =
      (if goStartsWith ⟨'(' :: (Z ++ [')'])⟩ "(" then
        match splitNOn [')', ',', '('] 3
          (goTrimSuffix (goTrimPrefix ⟨'(' :: (Z ++ [')'])⟩ "(") ")").data with
        | [a, b, c] =>
          .pkt (.storageAreas (stringsUnquotes ⟨a⟩) (stringsUnquotes ⟨b⟩)
            (stringsUnquotes ⟨c⟩))
        | _ => .panicked
      else
        match (unquotes ⟨'(' :: (Z ++ [')'])⟩).filterMap asInt with
        | [i0, i1, i2, i3, i4, i5] => .pkt (.storageInfo i0 i1 i2 i3 i4 i5)
        | [i0, i1, i2, i3] => .pkt (.storageInfo i0 i1 i2 i3 0 0)
        | _ => .pkt (.unknown "+CPMS" (unquotes ⟨'(' :: (Z ++ [')'])⟩))) := rfl
  rw [hbr, hparen]
  have hpre : goTrimPrefix ⟨'(' :: (Z ++ [')'])⟩ "(" = ⟨Z ++ [')']⟩ := by
    unfold goTrimPrefix
    rw [if_pos hparen]
    rfl
  rw [if_pos rfl, hpre, goTrimSuffix_rparen Z]
  have hsp : splitNOn [')', ',', '('] 3 ((⟨Z⟩ : String)).data = [J1, J2, J3] := by
    show splitNOn [')', ',', '('] 3 Z = [J1, J2, J3]
    rw [hZ]
    exact splitNOn_groups J1 J2 J3 hp1 hp2
  rw [hsp]
  show PResult.pkt (.storageAreas (stringsUnquotes ⟨J1⟩) (stringsUnquotes ⟨J2⟩)
      (stringsUnquotes ⟨J3⟩)) = _
  rw [hJ1, hJ2, hJ3,
    stringsUnquotes_joinQuoted [f1, f2, f3] (by simp) hq1,
    stringsUnquotes_joinQuoted [f4, f5, f6] (by simp) hq2,
    stringsUnquotes_joinQuoted [f7, f8, f9] (by simp) hq3]

/-- C7 witness: the theorem applied to the concrete storage-area reply
from the specification. -/
theorem c7_witness :
    parsePacket "OK"
      ("+CPMS: (" ++ (⟨joinQuoted ["SM", "SM", "SM"]⟩ : String) ++ "),(" ++
        (⟨joinQuoted ["SM", "SM", "SM"]⟩ : String) ++ "),(" ++
        (⟨joinQuoted ["MT", "MT", "MT"]⟩ : String) ++ ")") "" =
      .pkt (.storageAreas ["SM", "SM", "SM"] ["SM", "SM", "SM"] ["MT", "MT", "MT"]) :=
  c7_cpms_query "SM" "SM" "SM" "SM" "SM" "SM" "MT" "MT" "MT" "OK" "" (by decide)

end Gsmm
